import Mathlib

/-!
Verification of the effectum job queue core against its specification.

The definitions below are a shallow embedding of the Rust sources:
  * `src/local/src/worker.rs` — the per-worker dispatcher: the claim SQL
    query inside `WorkerInternal::run_ready_jobs`, the weight-packing claim
    loop, the dispatch loop in `WorkerInternal::run`, the builder defaults
    in `WorkerBuilder::build`, and `wait_for_next_autoheartbeat`.
  * `src/prefect/src/job_registry.rs` — `JobRegistry::add` and the runner
    outcome logic built by `JobDef::new`.
  * `src/prefect/src/lib.rs` — `Queue::wait_for_workers_to_stop`,
    `Queue::close_internal` and `Queue::close`.

Machine integers in the source (u16 counts and weights, i32 priorities and
seconds, i64 timestamps and job ids) are embedded as `Nat` / `Int`; the
places where the source arithmetic could not overflow are noted at the
definitions that use them.
-/

namespace Effectum

/-- A row of the `active_jobs` table, restricted to the columns that the
claim query in `WorkerInternal::run_ready_jobs` reads or writes.
`job_id` is the integer primary key (rowid), `run_at` a unix timestamp,
`worker_id` is `NULL` while the job is unclaimed. -/
structure JobRow where
  job_id : Int
  job_type : String
  priority : Int
  run_at : Int
  worker_id : Option Nat
  payload : List Nat
  checkpointed_payload : Option (List Nat)
deriving DecidableEq, Repr

/-- The WHERE clause of the claim query (worker.rs line 284):
`job_type in rarray($job_types) AND run_at <= $now`.
The source has no condition on `worker_id`. -/
def claimCandidate (job_types : List String) (now : Int) (r : JobRow) : Bool :=
  job_types.contains r.job_type && decide (r.run_at ≤ now)

/-- The candidate predicate as the specification states it, with the
additional `worker_id IS NULL` conjunct. Written from the words of the
spec (section 4.2 step 1) for comparison with `claimCandidate`, which is
written from the source. -/
def specClaimCandidate (job_types : List String) (now : Int) (r : JobRow) : Bool :=
  job_types.contains r.job_type && decide (r.run_at ≤ now) && r.worker_id.isNone

/-- The ORDER BY key of the claim query (worker.rs line 285):
`ORDER BY priority DESC, run_at`. `keyLE a b` holds when `a` may come
before `b` under that ordering. The query text has no further key, so
rows equal in both columns are unconstrained relative to each other. -/
def keyLE (a b : JobRow) : Bool :=
  decide (b.priority < a.priority) ||
    (decide (a.priority = b.priority) && decide (a.run_at ≤ b.run_at))

/-- The ordering the specification claims for the output:
priority DESC, then run_at ASC, then job_id ASC. -/
def fullKeyLE (a b : JobRow) : Bool :=
  decide (b.priority < a.priority) ||
    (decide (a.priority = b.priority) &&
      (decide (a.run_at < b.run_at) ||
        (decide (a.run_at = b.run_at) && decide (a.job_id ≤ b.job_id))))

/-- Executable check that every element of a list is `keyLE`-before every
later element. -/
def pairwiseKeyLE : List JobRow → Bool
  | [] => true
  | a :: rest => rest.all (fun b => keyLE a b) && pairwiseKeyLE rest

/-- Executable check that a list is ordered by the full key the
specification claims (priority DESC, run_at ASC, job_id ASC). -/
def pairwiseFullKeyLE : List JobRow → Bool
  | [] => true
  | a :: rest => rest.all (fun b => fullKeyLE a b) && pairwiseKeyLE rest

/-- Semantics of the claim SELECT (worker.rs lines 274-287): the rows
matching the WHERE clause, in some order consistent with
`ORDER BY priority DESC, run_at`, truncated by `LIMIT`. SQL leaves the
relative order of rows that compare equal on all ORDER BY keys
unspecified, so the semantics is a relation: `out` is an allowed result
exactly when it is a `LIMIT`-prefix of some `keyLE`-sorted permutation of
the matching rows. -/
def claimQueryAllowed (table : List JobRow) (job_types : List String)
    (now : Int) (limit : Nat) (out : List JobRow) : Prop :=
  ∃ perm : List JobRow,
    (table.filter (claimCandidate job_types now)).Perm perm ∧
    pairwiseKeyLE perm = true ∧
    out = perm.take limit

/-- The payload column of the claim query:
`COALESCE(checkpointed_payload, payload)` (worker.rs line 276). The
checkpointed payload overrides the original one exactly when it is
non-null. -/
def effectivePayload (r : JobRow) : List Nat :=
  r.checkpointed_payload.getD r.payload

/-- Modelled from the spec: the `Checkpoint` operation (its body lives in
`job.rs`, which is not part of the sources here). Spec section 4.5: "On
Checkpoint: overwrite `checkpointed_payload`"; the expiry extension it
also performs does not touch the payload columns. -/
def checkpointJob (r : JobRow) (p : List Nat) : JobRow :=
  { r with checkpointed_payload := some p }

/-- Modelled from the spec: rescheduling a failed attempt for retry (the
`Fail` operation body is not part of the sources here). Spec section 4.5:
set `run_at = now + d`, state Pending, clear `worker_id`; the payload and
`checkpointed_payload` columns are not modified. -/
def retryReschedule (r : JobRow) (next_run_at : Int) : JobRow :=
  { r with worker_id := none, run_at := next_run_at }

/-- Weight lookup for a job type (worker.rs lines 350-353):
`job_defs.get(job.job_type.as_str()).map(|j| j.weight).unwrap_or(1)`.
The registry is embedded as an association list of (name, weight). -/
def weightOf (job_defs : List (String × Nat)) (ty : String) : Nat :=
  match job_defs.find? (fun p => p.1 = ty) with
  | some p => p.2
  | none => 1

/-- The weight-packing loop over the query candidates (worker.rs lines
348-392). `c` is the local `running_count` tally. The loop body checks
`running_count + weight > max_concurrency` and breaks on the first
overflow; otherwise it marks the job running, adds the weight to the
tally, and continues. Returns the final tally and the claimed rows in
order. Counts are u16 in the source; the tally never exceeds
`max_concurrency < 2^16` when it starts below it, so `Nat` is faithful. -/
def claimLoop (job_defs : List (String × Nat)) (max_concurrency : Nat) :
    Nat → List JobRow → Nat × List JobRow
  | c, [] => (c, [])
  | c, j :: rest =>
    let w := weightOf job_defs j.job_type
    if max_concurrency < c + w then (c, [])
    else
      let r := claimLoop job_defs max_concurrency (c + w) rest
      (r.1, j :: r.2)

/-- Total weight that the claimed rows charge against the budget. -/
def sumWeights (job_defs : List (String × Nat)) (rows : List JobRow) : Nat :=
  (rows.map (fun j => weightOf job_defs j.job_type)).sum

/-- Executable check that every claimed row passed the overflow test with
the tally as it stood when that row was examined: starting from `c`, each
row `j` satisfies `c + weight j ≤ max_concurrency` with `c` already
including the weights of the rows claimed before it. -/
def checksOK (job_defs : List (String × Nat)) (max_concurrency : Nat) :
    Nat → List JobRow → Bool
  | _, [] => true
  | c, j :: rest =>
    let w := weightOf job_defs j.job_type
    decide (c + w ≤ max_concurrency) && checksOK job_defs max_concurrency (c + w) rest

/-- One iteration of the dispatch loop head (worker.rs lines 218-222 and
250-252): the claim is attempted exactly when the running count is below
`min_concurrency`, and then the query LIMIT is
`max_jobs = max_concurrency - running_count`. Returns the limit passed to
the claim query, or `none` when no claim is attempted. -/
def runIterationClaim (min_concurrency max_concurrency count : Nat) : Option Nat :=
  if count < min_concurrency then some (max_concurrency - count) else none

/-- State of one worker for the weight invariant: the weights of the jobs
it currently has running, and the shared atomic `running_jobs.count`. -/
structure WState where
  running : List Nat
  count : Nat
deriving DecidableEq, Repr

/-- Transitions touching the running set and the count.

`claim` is one successful iteration of the claim loop body: the overflow
check (worker.rs line 355) compares an observed tally `obs` against
`max_concurrency`. The observed tally is the value the loop variable
holds at that point — either the initial `load` (line 250) or the result
of the previous `fetch_add` (line 368) — and jobs finishing concurrently
only decrease the shared count, so `s.count ≤ obs` always holds when the
check runs. On success the `fetch_add(weight)` adds the weight of the
claimed job.

`finish` is the end of `run_job` (worker.rs line 451):
`running.count.fetch_sub(weight)` removes exactly the weight of the
finished job. -/
inductive WStep (max_concurrency : Nat) : WState → WState → Prop
  | claim (s : WState) (w obs : Nat) (hobs : s.count ≤ obs)
      (hfit : obs + w ≤ max_concurrency) :
      WStep max_concurrency s ⟨w :: s.running, s.count + w⟩
  | finish (s : WState) (w : Nat) (hmem : w ∈ s.running) :
      WStep max_concurrency s ⟨s.running.erase w, s.count - w⟩

/-- States reachable from the initial state (no running jobs, count 0 —
worker.rs line 169: `count: AtomicU16::new(0)`). -/
def WReachable (max_concurrency : Nat) (s : WState) : Prop :=
  Relation.ReflTransGen (WStep max_concurrency) ⟨[], 0⟩ s

/-- Job list selection in `WorkerBuilder::build` (worker.rs lines
130-134): the builder `jobs` field when non-empty, else every key of the
registry. -/
def buildJobList (registry : List (String × Nat)) (jobs : List String) : List String :=
  if jobs.isEmpty then registry.map (fun p => p.1) else jobs

/-- Maximum of a list of weights, defaulting to 1 when empty — the
embedding of `iter.max().unwrap_or(1)` (worker.rs lines 146-150). -/
def maxOr1 : List Nat → Nat
  | [] => 1
  | x :: xs => xs.foldl Nat.max x

/-- `jobs_max_concurrency` (worker.rs lines 146-150): the maximum weight
among the accepted job types, looked up in the registry with default 1. -/
def jobsMaxConcurrency (registry : List (String × Nat)) (job_list : List String) : Nat :=
  maxOr1 (job_list.map (weightOf registry))

/-- `max_concurrency` resolution (worker.rs lines 152-155):
`self.max_concurrency.unwrap_or(jobs_max_concurrency).max(jobs_max_concurrency)`. -/
def buildMaxConcurrency (registry : List (String × Nat)) (job_list : List String)
    (userMax : Option Nat) : Nat :=
  Nat.max (userMax.getD (jobsMaxConcurrency registry job_list))
    (jobsMaxConcurrency registry job_list)

/-- `min_concurrency` resolution (worker.rs line 157):
`self.min_concurrency.unwrap_or(max_concurrency / 2).max(1)`. -/
def buildMinConcurrency (userMin : Option Nat) (max_concurrency : Nat) : Nat :=
  Nat.max (userMin.getD (max_concurrency / 2)) 1

/-- `wait_for_next_autoheartbeat` (worker.rs lines 459-467), reduced to
the instant it sleeps until, as a unix timestamp:
`before = (heartbeat_increment.min(30) / 2)`,
`next = expires - before`, and the sleep target is
`now + max(next - now, 0)`. Rust i32 division truncates toward zero; the
task only runs under the guard `heartbeat_increment > 0` (worker.rs line
428), under which the dividend is positive and truncation agrees with the
`Int` division used here. -/
def waitForNextAutoheartbeatTarget (heartbeat_increment : Int)
    (expires now : Int) : Int :=
  let before := (min heartbeat_increment 30) / 2
  let next_heartbeat_time := expires - before
  let time_from_now := next_heartbeat_time - now
  now + max time_from_now 0

/-- The guard under which `run_job` starts the auto-heartbeat loop
(worker.rs line 428): `autoheartbeat && heartbeat_increment > 0`. -/
def autoheartbeatEnabled (autoheartbeat : Bool) (heartbeat_increment : Int) : Bool :=
  autoheartbeat && decide (0 < heartbeat_increment)

/-- One wakeup of the auto-heartbeat select loop (worker.rs lines
429-444): either the sleep reaches the next heartbeat instant, or the
done channel fires because the user function returned. -/
inductive RunnerEvent
  | tick
  | done
deriving DecidableEq, Repr

/-- The auto-heartbeat select loop: each tick issues one Heartbeat
operation and loops; the done signal breaks out. Returns the number of
Heartbeat operations issued over a sequence of wakeups. -/
def heartbeatsIssued : List RunnerEvent → Nat
  | [] => 0
  | .done :: _ => 0
  | .tick :: rest => 1 + heartbeatsIssued rest

/-- Payload of a caught panic, as `JobDef::new` inspects it
(job_registry.rs lines 125-131): a `&str`, a `String`, or anything else. -/
inductive PanicPayload
  | strRef (s : String)
  | strOwned (s : String)
  | other
deriving DecidableEq, Repr

/-- Message extraction from a panic payload (job_registry.rs lines
125-131): the string payload when there is one, else the fixed text
`"Panic"`. -/
def panicMessage : PanicPayload → String
  | .strRef s => s
  | .strOwned s => s
  | .other => "Panic"

/-- Outcome of running the user function under `catch_unwind`
(job_registry.rs lines 114-119): a caught panic, a normal `Ok` return, or
a normal `Err` return. -/
inductive RunResult (T E : Type) where
  | panicked (p : PanicPayload)
  | okInfo (info : T)
  | errInfo (e : E)

/-- Terminal report the runner issues for a finished user function:
`complete`, `fail`, or nothing beyond a log line. -/
inductive TerminalAction (T : Type) where
  | complete (info : T)
  | fail (msg : String)
  | logOnly

/-- The outcome match in the task built by `JobDef::new` (job_registry.rs
lines 123-156). `explicitly_finished` is the result of `job.is_done()`;
`toStr` is the `e.to_string()` stringification of the user error type.
Every branch produces exactly one `TerminalAction`, and a caught panic
never escapes this function. -/
def runnerReport {T E : Type} (toStr : E → String)
    (explicitly_finished : Bool) : RunResult T E → TerminalAction T
  | .panicked p =>
    if explicitly_finished then .logOnly else .fail (panicMessage p)
  | .okInfo info =>
    if explicitly_finished then .logOnly else .complete info
  | .errInfo e =>
    if explicitly_finished then .logOnly else .fail (toStr e)

/-- Errors surfaced by `Queue::close` that this development needs. -/
inductive QError
  | timeoutErr
deriving DecidableEq, Repr

/-- One wakeup of the select loop in `Queue::wait_for_workers_to_stop`
(prefect lib.rs lines 209-218): the timeout sleep fires, the worker-count
watch channel reports a new value, or the channel sender is dropped
(`res.is_err()`). -/
inductive WaitEvent
  | timeoutFired
  | countChanged (n : Nat)
  | senderDropped
deriving DecidableEq, Repr

/-- The select loop body of `wait_for_workers_to_stop`: a timeout firing
returns `Err(Timeout)`; a count change returns `Ok` when the count is 0
and loops otherwise; a dropped sender returns `Ok`. `none` means the loop
is still waiting after consuming every listed event. -/
def waitLoop : List WaitEvent → Option (Except QError Unit)
  | [] => none
  | .timeoutFired :: _ => some (.error .timeoutErr)
  | .countChanged n :: rest => if n = 0 then some (.ok ()) else waitLoop rest
  | .senderDropped :: _ => some (.ok ())

/-- `Queue::wait_for_workers_to_stop` (prefect lib.rs lines 201-219): if
the current worker count is already 0 it returns `Ok` before arming the
timeout or touching the event stream; otherwise it runs the select
loop. -/
def waitForWorkersToStop (initialCount : Nat) (events : List WaitEvent) :
    Option (Except QError Unit) :=
  if initialCount = 0 then some (.ok ()) else waitLoop events

/-- Effects of `Queue::close_internal` (prefect lib.rs lines 221-239) on
its collaborators: the result handed back to the caller of `close`,
whether any worker task was aborted, and whether the `Close` operation
was sent to the database writer. -/
structure CloseEffects where
  result : Option (Except QError Unit)
  workersAborted : Bool
  dbWriterClosed : Bool
deriving Repr

/-- `Queue::close_internal`: signal close, wait for the workers, then
unconditionally send `Close` to the database write thread and join it,
and return the wait result. The function contains no call that aborts a
worker join handle, so `workersAborted` is `false` on every path. -/
def closeInternal (initialCount : Nat) (events : List WaitEvent) : CloseEffects :=
  { result := waitForWorkersToStop initialCount events
    workersAborted := false
    dbWriterClosed := true }

/-- Key lookup in the registry association list, with the first binding
winning — the embedding of `HashMap` lookup for a map built by
`JobRegistry::new` / `JobRegistry::add`, whose keys are distinct. -/
def lookupJob {D : Type} (jobs : List (String × D)) (name : String) : Option D :=
  (jobs.find? (fun p => p.1 = name)).map (fun p => p.2)

/-- `JobRegistry::add` (job_registry.rs lines 43-50):
`entry(name).and_modify(panic).or_insert(def)`. The `and_modify` closure
panics whenever the entry already exists; otherwise the definition is
inserted. A panic is embedded as `none`. -/
def registryAdd {D : Type} (jobs : List (String × D)) (name : String) (d : D) :
    Option (List (String × D)) :=
  if (jobs.find? (fun p => p.1 = name)).isSome then none
  else some (jobs ++ [(name, d)])

/-- A row that is already claimed: `worker_id` is non-null, yet its type
matches and its `run_at` is in the past. -/
def rowTaken : JobRow :=
  { job_id := 1, job_type := "t", priority := 0, run_at := 0,
    worker_id := some 7, payload := [], checkpointed_payload := none }

/-- An unclaimed row with job_id 1; ties with `rowB` on priority and
run_at. -/
def rowA : JobRow :=
  { job_id := 1, job_type := "t", priority := 5, run_at := 0,
    worker_id := none, payload := [], checkpointed_payload := none }

/-- An unclaimed row with job_id 2; ties with `rowA` on priority and
run_at. -/
def rowB : JobRow :=
  { job_id := 2, job_type := "t", priority := 5, run_at := 0,
    worker_id := none, payload := [], checkpointed_payload := none }

/-! Helper lemmas. -/

theorem all_take {α : Type} (p : α → Bool) :
    ∀ (n : Nat) (l : List α), l.all p = true → (l.take n).all p = true := by
  intro n l
  induction l generalizing n with
  | nil => intro _; cases n <;> simp
  | cons a rest ih =>
    intro h
    cases n with
    | zero => simp
    | succ m =>
      simp only [List.take, List.all_cons, Bool.and_eq_true] at h ⊢
      exact ⟨h.1, ih m h.2⟩

theorem pairwiseKeyLE_take :
    ∀ (n : Nat) (l : List JobRow), pairwiseKeyLE l = true →
      pairwiseKeyLE (l.take n) = true := by
  intro n l
  induction l generalizing n with
  | nil => intro _; cases n <;> simp [pairwiseKeyLE]
  | cons a rest ih =>
    intro h
    cases n with
    | zero => simp [pairwiseKeyLE]
    | succ m =>
      simp only [List.take, pairwiseKeyLE, Bool.and_eq_true] at h ⊢
      exact ⟨all_take _ m rest h.1, ih m h.2⟩

theorem wstate_invariant (maxC : Nat) (s : WState) (h : WReachable maxC s) :
    s.count = s.running.sum ∧ s.count ≤ maxC := by
  induction h with
  | refl => exact ⟨rfl, Nat.zero_le _⟩
  | tail hab hbc ih =>
    obtain ⟨ih1, ih2⟩ := ih
    cases hbc with
    | claim w obs hobs hfit =>
      dsimp only
      refine ⟨?_, ?_⟩
      · simp only [List.sum_cons]
        omega
      · omega
    | finish w hmem =>
      rename_i t
      have hperm : t.running.Perm (w :: t.running.erase w) :=
        List.perm_cons_erase hmem
      have hsum : t.running.sum = w + (t.running.erase w).sum := by
        rw [hperm.sum_eq]; simp
      dsimp only
      refine ⟨?_, ?_⟩
      · omega
      · omega

/-! Claim theorems. -/

/-- C1. The specification states that the claim query selects only rows
with `worker_id IS NULL`, so a job already claimed by some worker is
never a candidate. The WHERE clause in the source
(`job_type in rarray($job_types) AND run_at <= $now`, worker.rs line 284)
has no `worker_id` condition: a row whose `worker_id` is already set is
selected, and a full claim query run on a table holding only that row may
return it. The predicate transcribed from the words of the spec
(`specClaimCandidate`) rejects the same row. -/
theorem claim_query_admits_taken_job :
    claimCandidate ["t"] 0 rowTaken = true ∧
    rowTaken.worker_id = some 7 ∧
    specClaimCandidate ["t"] 0 rowTaken = false ∧
    claimQueryAllowed [rowTaken] ["t"] 0 5 [rowTaken] := by
  refine ⟨by decide, rfl, by decide, [rowTaken], List.Perm.refl _, by decide, rfl⟩

/-- C2. At any reachable worker state, the sum of the weights of the
running jobs is at most `max_concurrency`: the claim loop admits a job
only when the observed tally plus its weight fits (worker.rs line 355),
each start adds the weight (line 368), and each finish subtracts exactly
the weight (line 451). -/
theorem worker_running_weight_invariant (maxC : Nat) (s : WState)
    (h : WReachable maxC s) : s.running.sum ≤ maxC := by
  have hinv := wstate_invariant maxC s h
  omega

theorem worker_running_weight_invariant_witness :
    (WState.mk [2] 2).running.sum ≤ 5 :=
  worker_running_weight_invariant 5 (WState.mk [2] 2)
    (Relation.ReflTransGen.single
      (WStep.claim (WState.mk [] 0) 2 0 (Nat.le_refl 0) (by decide)))

/-- C3 counterexample. The ORDER BY of the claim query has no `job_id`
key, so the SQL semantics allows rows that tie on priority and run_at to
come back with the higher job_id first: on a table of two tied rows with
job_ids 1 and 2, the output `[rowB, rowA]` (job_ids [2, 1]) is an allowed
query result, and it violates the claimed order. -/
theorem claim_order_jobid_tie_refuted :
    claimQueryAllowed [rowA, rowB] ["t"] 0 2 [rowB, rowA] ∧
    pairwiseFullKeyLE [rowB, rowA] = false ∧
    rowA.job_id < rowB.job_id := by
  refine ⟨⟨[rowB, rowA], ?_, by decide, rfl⟩, by decide, by decide⟩
  exact List.Perm.swap rowB rowA []

/-- C3 amended. The claim order respects priority descending and then
run_at ascending for every pair of candidates; the relative order of rows
that tie on both keys is not specified by the query. -/
theorem claim_order_priority_runat (table : List JobRow)
    (job_types : List String) (now : Int) (limit : Nat) (out : List JobRow)
    (h : claimQueryAllowed table job_types now limit out) :
    pairwiseKeyLE out = true := by
  obtain ⟨perm, _, hsort, hout⟩ := h
  subst hout
  exact pairwiseKeyLE_take limit perm hsort

theorem claim_order_priority_runat_witness :
    pairwiseKeyLE [rowA, rowB] = true :=
  claim_order_priority_runat [rowA, rowB] ["t"] 0 2 [rowA, rowB]
    ⟨[rowA, rowB], List.Perm.refl _, by decide, rfl⟩

/-- C4. The runner issues exactly one terminal report per user-function
outcome and explicit completion takes precedence: `Ok(info)` with the job
not explicitly finished gives `Complete(info)`; `Ok(info)` after an
explicit finish only logs; an error return with the job not explicitly
finished gives `Fail` with the stringified error; a caught panic with the
job not explicitly finished gives `Fail` with the message extracted from
the payload (the `&str` or `String` inside it, else the fixed text
`"Panic"`), and after an explicit finish a panic or error only logs. The
panic is consumed by this match, never rethrown. -/
theorem runner_outcome_reporting {T E : Type} (toStr : E → String)
    (info : T) (e : E) (p : PanicPayload) (s : String) :
    runnerReport toStr false (RunResult.okInfo (E := E) info) =
      TerminalAction.complete info ∧
    runnerReport toStr true (RunResult.okInfo (E := E) info) =
      TerminalAction.logOnly ∧
    runnerReport toStr false (RunResult.errInfo (T := T) e) =
      TerminalAction.fail (toStr e) ∧
    runnerReport toStr true (RunResult.errInfo (T := T) e) =
      TerminalAction.logOnly ∧
    runnerReport toStr false (RunResult.panicked (T := T) (E := E) p) =
      TerminalAction.fail (panicMessage p) ∧
    runnerReport toStr true (RunResult.panicked (T := T) (E := E) p) =
      TerminalAction.logOnly ∧
    panicMessage (PanicPayload.strRef s) = s ∧
    panicMessage (PanicPayload.strOwned s) = s ∧
    panicMessage PanicPayload.other = "Panic" :=
  ⟨rfl, rfl, rfl, rfl, rfl, rfl, rfl, rfl, rfl⟩

/-- C5. Checkpoint round-trip: checkpointing a payload and rescheduling
the job for retry leaves a row whose effective payload — the
`COALESCE(checkpointed_payload, payload)` column the claim query reads —
equals the checkpointed payload, and the claim query falls back to the
original payload exactly when no checkpoint exists. -/
theorem checkpoint_payload_roundtrip (r : JobRow) (p : List Nat)
    (next_run_at : Int) :
    effectivePayload (retryReschedule (checkpointJob r p) next_run_at) = p ∧
    (retryReschedule (checkpointJob r p) next_run_at).worker_id = none ∧
    effectivePayload { r with checkpointed_payload := none } = r.payload ∧
    (r.checkpointed_payload = none → effectivePayload r = r.payload) := by
  refine ⟨rfl, rfl, rfl, ?_⟩
  intro h
  simp [effectivePayload, h]

theorem checkpoint_payload_roundtrip_witness :
    effectivePayload (retryReschedule (checkpointJob rowA [9, 9]) 3) = [9, 9] ∧
    effectivePayload rowA = rowA.payload :=
  ⟨(checkpoint_payload_roundtrip rowA [9, 9] 3).1,
    (checkpoint_payload_roundtrip rowA [9, 9] 3).2.2.2 rfl⟩

theorem claimLoop_count (W : List (String × Nat)) (maxC : Nat) :
    ∀ (rows : List JobRow) (c : Nat),
      (claimLoop W maxC c rows).1 = c + sumWeights W (claimLoop W maxC c rows).2 := by
  intro rows
  induction rows with
  | nil => intro c; simp [claimLoop, sumWeights]
  | cons j rest ih =>
    intro c
    simp only [claimLoop]
    split
    · simp [sumWeights]
    · have hrec := ih (c + weightOf W j.job_type)
      simp only [sumWeights, List.map_cons, List.sum_cons] at hrec ⊢
      omega

theorem claimLoop_checks (W : List (String × Nat)) (maxC : Nat) :
    ∀ (rows : List JobRow) (c : Nat),
      checksOK W maxC c (claimLoop W maxC c rows).2 = true := by
  intro rows
  induction rows with
  | nil => intro c; simp [claimLoop, checksOK]
  | cons j rest ih =>
    intro c
    simp only [claimLoop]
    split
    · simp [checksOK]
    · rename_i hfit
      simp only [checksOK, Bool.and_eq_true, decide_eq_true_eq]
      exact ⟨by omega, ih (c + weightOf W j.job_type)⟩

/-- C6. The dispatch loop invokes the claim exactly when the running
count is below `min_concurrency` and then passes the budget
`B = max_concurrency - running_count` as the query LIMIT; the query
returns at most `B` rows; and the claim loop adds each claimed weight to
the tally before examining the next candidate, so the final tally is the
initial count plus the claimed weights and every admission check saw the
tally including all earlier claims. -/
theorem dispatch_claim_budget (minC maxC count c : Nat)
    (W : List (String × Nat)) (rows : List JobRow) (table : List JobRow)
    (job_types : List String) (now : Int) (out : List JobRow) :
    ((runIterationClaim minC maxC count).isSome ↔ count < minC) ∧
    (count < minC → runIterationClaim minC maxC count = some (maxC - count)) ∧
    (claimQueryAllowed table job_types now (maxC - count) out →
      out.length ≤ maxC - count) ∧
    (claimLoop W maxC c rows).1 = c + sumWeights W (claimLoop W maxC c rows).2 ∧
    checksOK W maxC c (claimLoop W maxC c rows).2 = true := by
  refine ⟨?_, ?_, ?_, claimLoop_count W maxC rows c, claimLoop_checks W maxC rows c⟩
  · rcases Nat.lt_or_ge count minC with hlt | hge
    · simp [runIterationClaim, hlt]
    · simp [runIterationClaim, Nat.not_lt.mpr hge]
  · intro h
    simp [runIterationClaim, h]
  · intro h
    obtain ⟨perm, _, _, hout⟩ := h
    subst hout
    rw [List.length_take]
    exact Nat.min_le_left _ _

theorem dispatch_claim_budget_witness :
    runIterationClaim 3 10 2 = some (10 - 2) :=
  (dispatch_claim_budget 3 10 2 0 [] [] [] [] 0 []).2.1 (by decide)

theorem weightOf_cons_ne {n m : String} {w : Nat}
    {rest : List (String × Nat)} (h : n ≠ m) :
    weightOf ((n, w) :: rest) m = weightOf rest m := by
  simp [weightOf, List.find?_cons, h]

theorem map_weightOf_eq_map_snd :
    ∀ (registry : List (String × Nat)),
      (registry.map Prod.fst).Nodup →
      (registry.map Prod.fst).map (weightOf registry) = registry.map Prod.snd := by
  intro registry
  induction registry with
  | nil => intro _; rfl
  | cons p rest ih =>
    intro hnd
    obtain ⟨n, w⟩ := p
    simp only [List.map_cons, List.nodup_cons] at hnd
    simp only [List.map_cons, List.cons.injEq]
    refine ⟨?_, ?_⟩
    · simp [weightOf, List.find?_cons]
    · have hmap : (rest.map Prod.fst).map (weightOf ((n, w) :: rest)) =
          (rest.map Prod.fst).map (weightOf rest) := by
        apply List.map_congr_left
        intro a ha
        have hne : n ≠ a := by
          intro hcontr
          exact hnd.1 (hcontr ▸ ha)
        exact weightOf_cons_ne hne
      rw [hmap]
      exact ih hnd.2

theorem le_foldl_max (l : List Nat) : ∀ (a : Nat), a ≤ l.foldl Nat.max a := by
  induction l with
  | nil => intro a; exact Nat.le_refl a
  | cons x xs ih =>
    intro a
    exact Nat.le_trans (Nat.le_max_left a x) (ih (Nat.max a x))

theorem mem_le_foldl_max (l : List Nat) :
    ∀ (a x : Nat), x ∈ l → x ≤ l.foldl Nat.max a := by
  induction l with
  | nil => intro a x hx; cases hx
  | cons y ys ih =>
    intro a x hx
    rcases List.mem_cons.mp hx with heq | hmem
    · subst heq
      exact Nat.le_trans (Nat.le_max_right a x) (le_foldl_max ys _)
    · exact ih (Nat.max a y) x hmem

theorem mem_le_maxOr1 {x : Nat} {l : List Nat} (h : x ∈ l) : x ≤ maxOr1 l := by
  cases l with
  | nil => cases h
  | cons y ys =>
    rcases List.mem_cons.mp h with heq | hmem
    · subst heq
      exact le_foldl_max ys x
    · exact mem_le_foldl_max ys y x hmem

/-- C7. Worker builder defaults: the accepted types default to every job
type in the registry; `max_concurrency` defaults to the maximum weight
among the accepted job types and, when set explicitly, is still clamped
from below by that maximum; `min_concurrency` defaults to
`max_concurrency / 2` with a floor of 1. -/
theorem worker_builder_defaults (registry : List (String × Nat))
    (userMax : Option Nat) (hnd : (registry.map Prod.fst).Nodup) :
    buildJobList registry [] = registry.map Prod.fst ∧
    buildMaxConcurrency registry (buildJobList registry []) none =
      maxOr1 (registry.map Prod.snd) ∧
    (∀ p ∈ registry,
      p.2 ≤ buildMaxConcurrency registry (buildJobList registry []) userMax) ∧
    buildMinConcurrency none
        (buildMaxConcurrency registry (buildJobList registry []) none) =
      Nat.max (maxOr1 (registry.map Prod.snd) / 2) 1 := by
  have hjl : buildJobList registry [] = registry.map Prod.fst := by
    simp [buildJobList]
  have hjm : jobsMaxConcurrency registry (buildJobList registry []) =
      maxOr1 (registry.map Prod.snd) := by
    rw [hjl]
    unfold jobsMaxConcurrency
    rw [map_weightOf_eq_map_snd registry hnd]
  have hmaxdef : buildMaxConcurrency registry (buildJobList registry []) none =
      maxOr1 (registry.map Prod.snd) := by
    simp [buildMaxConcurrency, hjm]
  refine ⟨hjl, hmaxdef, ?_, ?_⟩
  · intro p hp
    have hmem : p.2 ∈ registry.map Prod.snd := List.mem_map_of_mem Prod.snd hp
    have hle : p.2 ≤ maxOr1 (registry.map Prod.snd) := mem_le_maxOr1 hmem
    have hlow : maxOr1 (registry.map Prod.snd) ≤
        buildMaxConcurrency registry (buildJobList registry []) userMax := by
      unfold buildMaxConcurrency
      rw [hjm]
      exact Nat.le_max_right _ _
    exact Nat.le_trans hle hlow
  · rw [hmaxdef]
    simp [buildMinConcurrency]

theorem worker_builder_defaults_witness :
    (3 : Nat) ≤ buildMaxConcurrency [("a", 3), ("b", 1)]
      (buildJobList [("a", 3), ("b", 1)] []) (some 2) :=
  (worker_builder_defaults [("a", 3), ("b", 1)] (some 2) (by decide)).2.2.1
    ("a", 3) (by decide)

theorem heartbeatsIssued_replicate :
    ∀ (n : Nat) (rest : List RunnerEvent),
      heartbeatsIssued (List.replicate n RunnerEvent.tick ++
        RunnerEvent.done :: rest) = n := by
  intro n
  induction n with
  | zero => intro rest; rfl
  | succ m ih =>
    intro rest
    simp only [List.replicate, List.cons_append, heartbeatsIssued, List.append_eq]
    rw [ih rest]
    omega

/-- C8. With autoheartbeat enabled and a positive heartbeat increment,
the auto-heartbeat task sleeps until the instant
`expires_at - min(heartbeat_increment, 30) / 2`, clamped from below at
the current time; the loop is started exactly under the guard
`autoheartbeat && heartbeat_increment > 0`; and the select loop issues
one Heartbeat per wakeup that reaches the heartbeat instant, repeating
until the done signal of the user function fires, at which point it
stops issuing heartbeats. -/
theorem autoheartbeat_sleep_target (inc expires now : Int) (h : 0 < inc) :
    waitForNextAutoheartbeatTarget inc expires now =
      max (expires - (min inc 30) / 2) now ∧
    autoheartbeatEnabled true inc = true ∧
    (∀ (n : Nat) (rest : List RunnerEvent),
      heartbeatsIssued (List.replicate n RunnerEvent.tick ++
        RunnerEvent.done :: rest) = n) := by
  refine ⟨?_, by simp [autoheartbeatEnabled, h], heartbeatsIssued_replicate⟩
  have hdef : waitForNextAutoheartbeatTarget inc expires now =
      now + max (expires - (min inc 30) / 2 - now) 0 := rfl
  rw [hdef]
  omega

theorem autoheartbeat_sleep_target_witness :
    waitForNextAutoheartbeatTarget 10 100 50 =
      max (100 - (min 10 (30 : Int)) / 2) 50 ∧
    heartbeatsIssued [RunnerEvent.tick, RunnerEvent.tick,
      RunnerEvent.done, RunnerEvent.tick] = 2 :=
  ⟨(autoheartbeat_sleep_target 10 100 50 (by decide)).1,
    (autoheartbeat_sleep_target 10 100 50 (by decide)).2.2 2 [RunnerEvent.tick]⟩

/-- C9. `Queue::close` behavior: with the worker count already zero the
wait returns `Ok` without consuming any event; otherwise the first
timeout firing yields the `Timeout` error and a count change to zero
yields `Ok`; on every path the `Close` operation is still sent to the
database writer and no worker task is aborted. -/
theorem close_timeout_behavior (initial k : Nat)
    (events rest : List WaitEvent) :
    (closeInternal 0 events).result = some (Except.ok ()) ∧
    (closeInternal (k + 1) (WaitEvent.timeoutFired :: rest)).result =
      some (Except.error QError.timeoutErr) ∧
    (closeInternal (k + 1) (WaitEvent.countChanged 0 :: rest)).result =
      some (Except.ok ()) ∧
    (closeInternal initial events).dbWriterClosed = true ∧
    (closeInternal initial events).workersAborted = false := by
  refine ⟨?_, ?_, ?_, rfl, rfl⟩ <;>
    simp [closeInternal, waitForWorkersToStop, waitLoop]

theorem find?_append_of_none {α : Type} (p : α → Bool) :
    ∀ (l₁ l₂ : List α), l₁.find? p = none →
      (l₁ ++ l₂).find? p = l₂.find? p := by
  intro l₁
  induction l₁ with
  | nil => intro l₂ _; rfl
  | cons a rest ih =>
    intro l₂ h
    cases hp : p a with
    | true => simp [List.find?_cons, hp] at h
    | false =>
      simp only [List.find?_cons, hp] at h
      simp only [List.cons_append, List.find?_cons, hp]
      exact ih l₂ h

theorem find?_append_of_some {α : Type} (p : α → Bool) :
    ∀ (l₁ l₂ : List α) (a : α), l₁.find? p = some a →
      (l₁ ++ l₂).find? p = some a := by
  intro l₁
  induction l₁ with
  | nil => intro l₂ a h; cases h
  | cons b rest ih =>
    intro l₂ a h
    cases hp : p b with
    | true =>
      simp only [List.find?_cons, hp] at h
      simp only [List.cons_append, List.find?_cons, hp]
      exact h
    | false =>
      simp only [List.find?_cons, hp] at h
      simp only [List.cons_append, List.find?_cons, hp]
      exact ih l₂ a h

/-- C10. `JobRegistry::add` panics exactly when a definition with the
same name is already registered; when the name is new, the updated
registry maps that name to the given definition and every other name to
what it mapped to before. -/
theorem registry_add_semantics {D : Type} (jobs : List (String × D))
    (name : String) (d : D) :
    (registryAdd jobs name d = none ↔ (lookupJob jobs name).isSome = true) ∧
    (∀ m, registryAdd jobs name d = some m →
      lookupJob m name = some d ∧
      ∀ n2, n2 ≠ name → lookupJob m n2 = lookupJob jobs n2) := by
  unfold registryAdd
  by_cases hfind : ((jobs.find? (fun p => p.1 = name)).isSome : Prop)
  · rw [if_pos hfind]
    refine ⟨?_, ?_⟩
    · simp [lookupJob, Option.isSome_map, hfind]
    · intro m hm; cases hm
  · rw [if_neg hfind]
    have hnone : jobs.find? (fun p => p.1 = name) = none := by
      cases hcase : jobs.find? (fun p => p.1 = name) with
      | none => rfl
      | some a => rw [hcase] at hfind; simp at hfind
    refine ⟨?_, ?_⟩
    · simp [lookupJob, Option.isSome_map, hnone]
    · intro m hm
      injection hm with hm
      subst hm
      refine ⟨?_, ?_⟩
      · unfold lookupJob
        rw [find?_append_of_none _ jobs _ hnone]
        simp [List.find?_cons]
      · intro n2 hn2
        unfold lookupJob
        cases hcase : jobs.find? (fun p => p.1 = n2) with
        | some a =>
          rw [find?_append_of_some _ jobs _ a hcase]
        | none =>
          rw [find?_append_of_none _ jobs _ hcase]
          simp [List.find?_cons, Ne.symm hn2]

theorem registry_add_semantics_witness :
    lookupJob [("a", 1), ("b", 2)] "b" = some 2 ∧
    lookupJob [("a", 1), ("b", 2)] "a" = some (1 : Nat) :=
  have h := registry_add_semantics [("a", (1 : Nat))] "b" 2
  ⟨((h.2 [("a", 1), ("b", 2)]) (by decide)).1,
    ((h.2 [("a", 1), ("b", 2)]) (by decide)).2 "a" (by decide)⟩

end Effectum
